import Mathlib

/-!
Verification of the rs_trader matching core (`src/main.py`).

The development shallowly embeds the `JsonDatabase` store and the `Exchange`
matching engine.  The data-model records (`Order`, `OrderPart`, `OrderLink`,
`OrderType`, `OrderStatus`) live in a module that is not part of the core
sources, so they are modelled from the spec (§3); every operation below is
translated line by line from `src/main.py`.

Python-specific conventions of the embedding:
* UUIDs are modelled as natural numbers; `uuid4` freshness is an explicit
  hypothesis where an id is caller-supplied, and a `nextId` counter in the
  store where the code generates part ids internally.
* `datetime.now()` timestamps are modelled as the constant `0`; no claim
  mentions them.
* A Python exception escaping an operation (the `orders[0]` IndexError in
  `get_order_remaining_quantity`) is modelled as `none`.
* Python's `==` between values of different runtime types (`int` versus
  `str`) is `False`; `pyIntEqStr` records exactly that fact.
-/

namespace RsTrader

/-- Modelled from the spec: `order_type ∈ {BUY, SELL}` (§3, structs module
not among the core sources). -/
inductive OrderType where
  | BUY
  | SELL
deriving DecidableEq, Repr

/-- Modelled from the spec: `status ∈ {OPEN, CLOSED}` (§3, structs module
not among the core sources). -/
inductive OrderStatus where
  | OPEN
  | CLOSED
deriving DecidableEq, Repr

/-- Modelled from the spec: an Order (§3).  `order_id` and `user_id` are the
integer surrogates of the Python values (the demo driver passes integer
user ids; pydantic keeps the declared types in `model_dump`). -/
structure Order where
  order_id : Nat
  user_id : Nat
  item_id : Nat
  order_type : OrderType
  quantity : Int
  price : Int
  order_status : OrderStatus
deriving DecidableEq, Repr

/-- Modelled from the spec: an OrderPart (§3), one atomic execution. -/
structure OrderPart where
  order_part_id : Nat
  quantity : Int
  price : Int
  executed_at : Nat
deriving DecidableEq, Repr

/-- Modelled from the spec: an OrderLink (§3), associating one OrderPart
with one Order it settled. -/
structure OrderLink where
  order_id : Nat
  order_part_id : Nat
deriving DecidableEq, Repr

/-- The `JsonDatabase.db` dictionary: three append-only tables, plus the
counter that models generation of fresh `order_part_id`s (`uuid4` in the
Python `OrderPart` constructor). -/
structure Db where
  orders : List Order
  order_parts : List OrderPart
  order_links : List OrderLink
  nextId : Nat
deriving DecidableEq, Repr

def Db.empty : Db := ⟨[], [], [], 0⟩

/-- `JsonDatabase.add_order`: append the order row. -/
def add_order (db : Db) (o : Order) : Db :=
  { db with orders := db.orders ++ [o] }

/-- `JsonDatabase.add_order_part`: append-only insert. -/
def add_order_part (db : Db) (p : OrderPart) : Db :=
  { db with order_parts := db.order_parts ++ [p] }

/-- `JsonDatabase.add_order_link`: append-only insert. -/
def add_order_link (db : Db) (l : OrderLink) : Db :=
  { db with order_links := db.order_links ++ [l] }

/-- An optional equality filter: `param is None or row[field] == param`. -/
def optEq (filt : Option Nat) (v : Nat) : Bool :=
  match filt with
  | none => true
  | some x => v == x

/-- `JsonDatabase.get_orders`: conjunction of the optional filters, in
store order.  Parameters are positional: order_id, item_id, user_id,
order_type, status, max_price, min_price. -/
def get_orders (db : Db) (order_id : Option Nat) (item_id : Option Nat)
    (user_id : Option Nat) (order_type : Option OrderType)
    (status : Option OrderStatus) (max_price : Option Int)
    (min_price : Option Int) : List Order :=
  db.orders.filter fun o =>
    optEq order_id o.order_id &&
    optEq item_id o.item_id &&
    optEq user_id o.user_id &&
    (match order_type with | none => true | some t => o.order_type == t) &&
    (match status with | none => true | some s => o.order_status == s) &&
    (match max_price with | none => true | some p => decide (o.price ≤ p)) &&
    (match min_price with | none => true | some p => decide (p ≤ o.price))

/-- `JsonDatabase.get_order_parts`: first collect the part ids of the links
passing the `order_id` filter, then keep a part if its id is among them,
or else (`elif`) if it equals the `order_part_id` parameter. -/
def get_order_parts (db : Db) (order_id : Option Nat)
    (order_part_id : Option Nat) : List OrderPart :=
  let links := (db.order_links.filter fun l => optEq order_id l.order_id).map
    (fun l => l.order_part_id)
  db.order_parts.filter fun p =>
    links.contains p.order_part_id ||
      (match order_part_id with
       | none => false
       | some x => p.order_part_id == x)

/-- `JsonDatabase.get_order_remaining_quantity`: `orders[0]` raises when no
order matches (modelled as `none`); otherwise the first matching order's
quantity minus the summed quantities of the parts returned by
`get_order_parts(order_id=order_id)`. -/
def get_order_remaining_quantity (db : Db) (order_id : Nat) : Option Int :=
  match get_orders db (some order_id) none none none none none none with
  | [] => none
  | o :: _ =>
    let parts := get_order_parts db (some order_id) none
    some (o.quantity - (parts.map (fun p => p.quantity)).sum)

/-- Python's `==` between the stored integer `user_id` field and the string
`str(order_id)`: a comparison between an `int` and a `str`, which Python
evaluates to `False` for every pair of values. -/
def pyIntEqStr (_n : Nat) (_s : String) : Bool :=
  false

/-- The loop body of `JsonDatabase.update_order_status`: set the status of
the first row matching the guard, then `break`. -/
def setStatusFirst (p : Order → Bool) (status : OrderStatus) :
    List Order → List Order
  | [] => []
  | o :: rest =>
    if p o then { o with order_status := status } :: rest
    else o :: setStatusFirst p status rest

/-- `JsonDatabase.update_order_status`: iterate the rows and mutate the
first one whose guard `order["user_id"] == str(order_id)` holds.  The guard
compares the integer `user_id` with the string form of `order_id`
(`pyIntEqStr`), so it holds for no row. -/
def update_order_status (db : Db) (order_id : Nat) (status : OrderStatus) : Db :=
  { db with
    orders := setStatusFirst
      (fun o => pyIntEqStr o.user_id (toString order_id)) status db.orders }

/-- The comparator of `open_orders.sort(key=lambda o: o.price)`. -/
def priceLe (a b : Order) : Prop := a.price ≤ b.price

instance : DecidableRel priceLe := fun a b =>
  inferInstanceAs (Decidable (a.price ≤ b.price))

instance : IsTotal Order priceLe := ⟨fun a b => Int.le_total a.price b.price⟩

instance : IsTrans Order priceLe := ⟨fun _ _ _ h h' => le_trans h h'⟩

/-- Python's `list.sort` is stable and sorts ascending by the key; a stable
sort is extensionally determined by the key and the input order, so
insertion sort computes the identical list. -/
def sortByPrice (l : List Order) : List Order :=
  List.insertionSort priceLe l

/-- One iteration of the loop in `Exchange._fulfill_order` after the fill
quantity has been computed: create the OrderPart (fresh id, `executed_at`
modelled as 0, price of the matched order), link it to the primary and to
the matched order, and run the conditional status update of line 160. -/
def fulfillStep (primary m : Order) (fill : Int) (db : Db) : Db :=
  let part : OrderPart := ⟨db.nextId, fill, m.price, 0⟩
  let db1 := { db with nextId := db.nextId + 1 }
  let db2 := add_order_part db1 part
  let db3 := add_order_link db2 ⟨primary.order_id, part.order_part_id⟩
  let db4 := add_order_link db3 ⟨m.order_id, part.order_part_id⟩
  if m.quantity == fill then update_order_status db4 m.order_id OrderStatus.CLOSED
  else db4

/-- The loop of `Exchange._fulfill_order`: `break` once the remaining
quantity is ≤ 0; each step reads the candidate's remaining quantity from
the store (a missing candidate raises, modelled as `none`), fills
`min(remaining, match_quantity)` and decrements. -/
def fulfillLoop (primary : Order) (remaining : Int) (ms : List Order)
    (db : Db) : Option (Db × Int) :=
  match ms with
  | [] => some (db, remaining)
  | m :: rest =>
    if remaining ≤ 0 then some (db, remaining)
    else
      match get_order_remaining_quantity db m.order_id with
      | none => none
      | some match_quantity =>
        let fill := min remaining match_quantity
        fulfillLoop primary (remaining - fill) rest (fulfillStep primary m fill db)

/-- `Exchange._fulfill_order`: run the loop starting from the primary
order's quantity; afterwards, if the remaining quantity is 0, call
`update_order_status` with `primary_order.user_id` as the id argument
(line 165 passes the user id); otherwise only the in-memory
`primary_order.quantity` is reassigned, which does not touch the store. -/
def fulfill_order (primary : Order) (ms : List Order) (db : Db) :
    Option Db :=
  match fulfillLoop primary primary.quantity ms db with
  | none => none
  | some (db', remaining) =>
    if remaining == 0 then
      some (update_order_status db' primary.user_id OrderStatus.CLOSED)
    else some db'

/-- The candidate list of `Exchange.match_buy_order`: OPEN SELL orders on
the same item with price at most the buy price, sorted ascending by price
(stable). -/
def buyCandidates (db : Db) (buy : Order) : List Order :=
  sortByPrice (get_orders db none (some buy.item_id) none (some OrderType.SELL)
    (some OrderStatus.OPEN) (some buy.price) none)

/-- The candidate list of `Exchange.match_sell_order`: OPEN BUY orders on
the same item with price at least the sell price, sorted ascending by
price (the comparator is reused, line 117). -/
def sellCandidates (db : Db) (sell : Order) : List Order :=
  sortByPrice (get_orders db none (some sell.item_id) none (some OrderType.BUY)
    (some OrderStatus.OPEN) none (some sell.price))

/-- `Exchange.match_buy_order`. -/
def match_buy_order (db : Db) (buy : Order) : Option Db :=
  fulfill_order buy (buyCandidates db buy) db

/-- `Exchange.match_sell_order`. -/
def match_sell_order (db : Db) (sell : Order) : Option Db :=
  fulfill_order sell (sellCandidates db sell) db

/-- `Exchange.place_order`: persist the order, then dispatch on its type. -/
def place_order (db : Db) (o : Order) : Option Db :=
  let db1 := add_order db o
  match o.order_type with
  | OrderType.BUY => match_buy_order db1 o
  | OrderType.SELL => match_sell_order db1 o

/-- Store states reachable by `place_order` calls from the empty store; the
`uuid4`-generated `order_id` of each placed order is fresh. -/
inductive Reachable : Db → Prop where
  | empty : Reachable Db.empty
  | place (db db' : Db) (o : Order) : Reachable db →
      o.order_id ∉ db.orders.map (fun x => x.order_id) →
      place_order db o = some db' →
      Reachable db'

/-! Concrete scenario states.  `buy1`/`sell1` are the spec's Scenario 1/2
orders (§8); the remaining states exercise the behaviors the other claims
are about. -/

def buy1 : Order := ⟨1, 1, 1001, OrderType.BUY, 10, 150, OrderStatus.OPEN⟩

def sell1 : Order := ⟨2, 2, 1001, OrderType.SELL, 5, 140, OrderStatus.OPEN⟩

/-- The store after Scenario 1: one resting BUY. -/
def db1 : Db := (place_order Db.empty buy1).getD Db.empty

/-- The store after Scenario 2: the SELL has been matched against the BUY. -/
def db2 : Db := (place_order db1 sell1).getD Db.empty

/-- The single execution created in Scenario 2. -/
def part0 : OrderPart := ⟨0, 5, 150, 0⟩

def c2db : Db := add_order Db.empty ⟨7, 1, 3, OrderType.BUY, 5, 10, OrderStatus.OPEN⟩

def b8 : Order := ⟨1, 1, 1001, OrderType.BUY, 5, 150, OrderStatus.OPEN⟩

def s8a : Order := ⟨2, 2, 1001, OrderType.SELL, 5, 140, OrderStatus.OPEN⟩

def s8b : Order := ⟨3, 3, 1001, OrderType.SELL, 5, 140, OrderStatus.OPEN⟩

def db8a : Db := (place_order Db.empty b8).getD Db.empty

def db8b : Db := (place_order db8a s8a).getD Db.empty

/-- The store after a fully-filled-but-still-OPEN BUY is matched again. -/
def db8c : Db := (place_order db8b s8b).getD Db.empty

def sellX : Order := ⟨1, 7, 5, OrderType.SELL, 5, 100, OrderStatus.OPEN⟩

def buyX : Order := ⟨2, 7, 5, OrderType.BUY, 5, 100, OrderStatus.OPEN⟩

def dbX1 : Db := (place_order Db.empty sellX).getD Db.empty

/-- The store after user 7 trades against their own resting SELL. -/
def dbX2 : Db := (place_order dbX1 buyX).getD Db.empty

/-! Store-contract lemmas shared by several claims. -/

lemma get_orders_by_id (db : Db) (i : Nat) :
    get_orders db (some i) none none none none none none =
      db.orders.filter (fun o => o.order_id == i) := by
  simp [get_orders, optEq]

/-- Spec §4.1's reading of `quantity − Σ(linked part quantities)`: the
OrderParts linked to order `i` via OrderLink records. -/
def specLinkedParts (db : Db) (i : Nat) : List OrderPart :=
  db.order_parts.filter fun p =>
    db.order_links.any fun l => l.order_id == i && p.order_part_id == l.order_part_id

lemma get_order_parts_by_order (db : Db) (i : Nat) :
    get_order_parts db (some i) none = specLinkedParts db i := by
  unfold get_order_parts specLinkedParts
  apply List.filter_congr
  intro p _
  rw [Bool.eq_iff_iff]
  simp only [List.contains_eq_any_beq, List.any_eq_true, List.mem_map,
    List.mem_filter, Bool.and_eq_true, beq_iff_eq, Bool.or_eq_true, optEq]
  constructor
  · rintro (⟨x, ⟨l, ⟨hl, hi⟩, rfl⟩, he⟩ | h)
    · exact ⟨l, hl, hi, he⟩
    · cases h
  · rintro ⟨l, hl, hi, he⟩
    exact Or.inl ⟨l.order_part_id, ⟨l, ⟨hl, hi⟩, rfl⟩, he⟩

/-- C6: `get_order_remaining_quantity` returns nothing exactly when no
stored order has the requested id (the `orders[0]` lookup fails), and
otherwise returns that order's original quantity minus the summed
quantities of the OrderParts linked to it by OrderLink records. -/
theorem C6_remaining_quantity_contract (db : Db) (i : Nat) :
    (get_order_remaining_quantity db i = none ↔ ∀ o ∈ db.orders, o.order_id ≠ i) ∧
    get_order_remaining_quantity db i =
      (match (db.orders.filter (fun o => o.order_id == i)).head? with
       | none => none
       | some o =>
         some (o.quantity - ((specLinkedParts db i).map (fun p => p.quantity)).sum)) := by
  unfold get_order_remaining_quantity
  rw [get_orders_by_id, get_order_parts_by_order]
  cases h : db.orders.filter (fun o => o.order_id == i) with
  | nil =>
    simp only [h, List.head?]
    constructor
    · simp only [List.filter_eq_nil_iff] at h
      simpa using h
    · trivial
  | cons o t =>
    simp only [h, List.head?]
    constructor
    · have ho : o ∈ db.orders.filter (fun o => o.order_id == i) := by
        rw [h]; exact List.mem_cons_self o t
      rw [List.mem_filter] at ho
      simp only [reduceCtorEq, false_iff, not_forall]
      exact ⟨o, ho.1, by simpa using ho.2⟩
    · trivial

/-- C9: with `order_id = None` and a concrete `order_part_id`, the
`order_id` filter passes every link, so `get_order_parts` returns every
part referenced by at least one OrderLink, plus (`elif`) the part with the
requested id; the `order_part_id` filter only matters for unlinked parts. -/
theorem C9_linked_parts_leak (db : Db) (pid : Nat) :
    get_order_parts db none (some pid) =
      db.order_parts.filter (fun p =>
        db.order_links.any (fun l => l.order_part_id == p.order_part_id) ||
          p.order_part_id == pid) := by
  unfold get_order_parts
  apply List.filter_congr
  intro p _
  rw [Bool.eq_iff_iff]
  simp only [List.contains_eq_any_beq, List.any_eq_true, List.mem_map,
    List.mem_filter, beq_iff_eq, Bool.or_eq_true, optEq, List.filter_true]
  constructor
  · rintro (⟨x, ⟨l, hl, rfl⟩, he⟩ | h)
    · exact Or.inl ⟨l, hl, he.symm⟩
    · exact Or.inr h
  · rintro (⟨l, hl, he⟩ | h)
    · exact Or.inl ⟨l.order_part_id, ⟨l, hl, rfl⟩, he.symm⟩
    · exact Or.inr h

/-- C1: evaluation at the failing input.  After Scenario 1 then Scenario 2
(BUY 10@150, then SELL 5@140), the SELL order's remaining quantity is 0 yet
its stored status is still OPEN: `update_order_status` compares the integer
`user_id` field with `str(order_id)`, which never matches, so no status
ever becomes CLOSED and the claimed iff fails. -/
theorem C1_closed_iff_zero_fails :
    place_order db1 sell1 = some db2 ∧
    get_order_remaining_quantity db2 2 = some 0 ∧
    (∃ o ∈ db2.orders, o.order_id = 2 ∧ o.order_status = OrderStatus.OPEN) := by
  decide

/-- C2: evaluation at the failing input.  With a single stored order of
`order_id = 7`, `update_order_status 7 CLOSED` leaves the store unchanged
(the guard compares `user_id` with `str(order_id)`), and for a missing id
it silently returns unchanged instead of failing with NotFound. -/
theorem C2_update_keying_fails :
    update_order_status c2db 7 OrderStatus.CLOSED = c2db ∧
    update_order_status c2db 999 OrderStatus.CLOSED = c2db ∧
    (∃ o ∈ c2db.orders, o.order_id = 7 ∧ o.order_status = OrderStatus.OPEN) := by
  decide

/-- C3, counterexample: at the Scenario 2 input the claim is false — the
created OrderPart carries the resting BUY's price 150 (not 140), and the
SELL's stored status is not CLOSED. -/
theorem C3_counterexample :
    ¬ (db2.order_parts.length = 1 ∧
       (∀ p ∈ db2.order_parts, p.quantity = 5 ∧ p.price = 140) ∧
       (db2.order_links.filter (fun l => l.order_part_id == 0)).length = 2 ∧
       (∃ o ∈ db2.orders, o.order_id = 2 ∧ o.order_status = OrderStatus.CLOSED) ∧
       (∃ o ∈ db2.orders, o.order_id = 1 ∧ o.order_status = OrderStatus.OPEN) ∧
       get_order_remaining_quantity db2 1 = some 5) := by
  decide

/-- C3, amended: placing SELL(item 1001, qty 5, price 140) on the store
holding the OPEN BUY(1001, 10, 150) creates exactly one OrderPart with
quantity 5 and price 150 (the resting BUY's price), exactly two OrderLinks
for it (one to the BUY, one to the SELL), leaves the SELL's stored status
OPEN with remaining quantity 0 (the status update never fires), and leaves
the BUY OPEN with remaining quantity 5. -/
theorem C3_amended_scenario2 :
    place_order Db.empty buy1 = some db1 ∧
    place_order db1 sell1 = some db2 ∧
    db2.order_parts = [part0] ∧
    db2.order_links = [⟨2, 0⟩, ⟨1, 0⟩] ∧
    (∃ o ∈ db2.orders, o.order_id = 2 ∧ o.order_status = OrderStatus.OPEN) ∧
    (∃ o ∈ db2.orders, o.order_id = 1 ∧ o.order_status = OrderStatus.OPEN) ∧
    get_order_remaining_quantity db2 2 = some 0 ∧
    get_order_remaining_quantity db2 1 = some 5 := by
  decide

/-- C8: evaluation at the failing input.  BUY(5@150) is fully filled by
SELL(5@140) but stays OPEN (the status update never fires), so a second
SELL(5@140) matches it at remaining quantity 0 and the engine records a
zero-quantity OrderPart, violating the `quantity > 0` invariant. -/
theorem C8_zero_quantity_part :
    place_order Db.empty b8 = some db8a ∧
    place_order db8a s8a = some db8b ∧
    place_order db8b s8b = some db8c ∧
    get_order_remaining_quantity db8b 1 = some 0 ∧
    (∃ p ∈ db8c.order_parts, p.quantity = 0) := by
  decide

/-! Stability of the candidate sort: filtering the sorted list at one price
returns those orders in store order, because Python's `list.sort` (and thus
insertion sort, its extensional equal) never exchanges equal keys. -/

lemma filter_price_orderedInsert (p : Int) (a : Order) (l : List Order) :
    (List.orderedInsert priceLe a l).filter (fun o => o.price == p) =
      if a.price = p then a :: l.filter (fun o => o.price == p)
      else l.filter (fun o => o.price == p) := by
  induction l with
  | nil =>
    simp only [List.orderedInsert, List.filter_cons, List.filter_nil]
    by_cases h : a.price = p <;> simp [h]
  | cons b l ih =>
    by_cases hab : priceLe a b
    · rw [List.orderedInsert_of_le _ _ hab]
      by_cases h : a.price = p <;> simp [List.filter_cons, h]
    · have hstep : List.orderedInsert priceLe a (b :: l) =
          b :: List.orderedInsert priceLe a l := by
        simp [List.orderedInsert, hab]
      have hba : b.price < a.price := not_le.mp (by simpa [priceLe] using hab)
      rw [hstep, List.filter_cons, ih]
      by_cases h : a.price = p
      · have hbp : (b.price == p) = false := by
          rw [beq_eq_false_iff_ne]; subst h; exact Int.ne_of_lt hba
        simp [h, hbp, List.filter_cons]
      · simp [h, List.filter_cons]

lemma filter_price_insertionSort (p : Int) (l : List Order) :
    (List.insertionSort priceLe l).filter (fun o => o.price == p) =
      l.filter (fun o => o.price == p) := by
  induction l with
  | nil => rfl
  | cons a l ih =>
    show (List.orderedInsert priceLe a (List.insertionSort priceLe l)).filter _ = _
    rw [filter_price_orderedInsert]
    by_cases h : a.price = p <;> simp [h, List.filter_cons, ih]

lemma get_orders_buy_filter (db : Db) (buy : Order) :
    get_orders db none (some buy.item_id) none (some OrderType.SELL)
      (some OrderStatus.OPEN) (some buy.price) none =
    db.orders.filter (fun o =>
      o.order_status == OrderStatus.OPEN && o.order_type == OrderType.SELL &&
      o.item_id == buy.item_id && decide (o.price ≤ buy.price)) := by
  unfold get_orders
  apply List.filter_congr
  intro o _
  rw [Bool.eq_iff_iff]
  simp only [optEq, Bool.and_eq_true, beq_iff_eq, decide_eq_true_eq, Bool.true_and]
  tauto

/-- C4: the candidate list handed to the fill-allocation procedure for a
BUY consists exactly of the stored OPEN SELL orders on the same item priced
at or below the buy limit (so a BUY never fills against a SELL above its
limit), sorted ascending by price with equal-price ties kept in
store-return order. -/
theorem C4_buy_candidates (db : Db) (buy : Order) :
    (∀ m ∈ buyCandidates db buy,
        m.order_status = OrderStatus.OPEN ∧ m.order_type = OrderType.SELL ∧
        m.item_id = buy.item_id ∧ m.price ≤ buy.price) ∧
    List.Sorted priceLe (buyCandidates db buy) ∧
    (∀ p : Int,
        (buyCandidates db buy).filter (fun o => o.price == p) =
          (db.orders.filter (fun o =>
            o.order_status == OrderStatus.OPEN && o.order_type == OrderType.SELL &&
            o.item_id == buy.item_id && decide (o.price ≤ buy.price))).filter
            (fun o => o.price == p)) ∧
    match_buy_order db buy = fulfill_order buy (buyCandidates db buy) db := by
  refine ⟨?_, ?_, ?_, rfl⟩
  · intro m hm
    unfold buyCandidates sortByPrice at hm
    rw [List.mem_insertionSort, get_orders_buy_filter, List.mem_filter] at hm
    obtain ⟨-, hp⟩ := hm
    simp only [Bool.and_eq_true, beq_iff_eq, decide_eq_true_eq] at hp
    tauto
  · unfold buyCandidates sortByPrice
    exact List.sorted_insertionSort priceLe _
  · intro p
    unfold buyCandidates sortByPrice
    rw [filter_price_insertionSort, get_orders_buy_filter]

/-- C10: self-trading is permitted — user 7 places SELL(item 5, 5@100) and
then BUY(item 5, 5@100); the BUY matches the user's own SELL, producing one
OrderPart whose two OrderLinks reference two orders that both belong to
user 7. -/
theorem C10_self_trade :
    place_order Db.empty sellX = some dbX1 ∧
    place_order dbX1 buyX = some dbX2 ∧
    dbX2.order_parts.length = 1 ∧
    dbX2.order_links = [⟨2, 0⟩, ⟨1, 0⟩] ∧
    (∃ o ∈ dbX2.orders, o.order_id = 2 ∧ o.user_id = 7 ∧
      o.order_type = OrderType.BUY) ∧
    (∃ o ∈ dbX2.orders, o.order_id = 1 ∧ o.user_id = 7 ∧
      o.order_type = OrderType.SELL) := by
  decide

lemma setStatusFirst_of_false (p : Order → Bool) (hp : ∀ o, p o = false)
    (s : OrderStatus) (l : List Order) : setStatusFirst p s l = l := by
  induction l with
  | nil => rfl
  | cons o rest ih => simp [setStatusFirst, hp o, ih]

lemma update_order_status_eq (db : Db) (i : Nat) (s : OrderStatus) :
    update_order_status db i s = db := by
  unfold update_order_status
  rw [setStatusFirst_of_false
    (fun o => pyIntEqStr o.user_id (toString i)) (fun o => rfl)]

lemma fulfillStep_eq (primary m : Order) (fill : Int) (db : Db) :
    fulfillStep primary m fill db =
      { orders := db.orders,
        order_parts := db.order_parts ++ [OrderPart.mk db.nextId fill m.price 0],
        order_links := db.order_links ++
          [OrderLink.mk primary.order_id db.nextId, OrderLink.mk m.order_id db.nextId],
        nextId := db.nextId + 1 } := by
  unfold fulfillStep add_order_part add_order_link
  split
  · rw [update_order_status_eq]
    simp [List.append_assoc]
  · simp [List.append_assoc]

lemma grq_spec (db : Db) (i : Nat) :
    get_order_remaining_quantity db i =
      (match (db.orders.filter (fun o => o.order_id == i)).head? with
       | none => none
       | some o =>
         some (o.quantity - ((specLinkedParts db i).map (fun p => p.quantity)).sum)) := by
  unfold get_order_remaining_quantity
  rw [get_orders_by_id, get_order_parts_by_order]
  cases h : db.orders.filter (fun o => o.order_id == i) with
  | nil => simp [h, List.head?]
  | cons o t => simp [h, List.head?]

lemma specLinkedParts_fulfillStep (db : Db) (primary m : Order) (fill : Int)
    (k : Nat) (hk1 : k ≠ primary.order_id) (hk2 : k ≠ m.order_id)
    (hlinks : ∀ l ∈ db.order_links, l.order_part_id < db.nextId) :
    specLinkedParts (fulfillStep primary m fill db) k = specLinkedParts db k := by
  rw [fulfillStep_eq]
  unfold specLinkedParts
  rw [List.filter_append]
  have hP : ∀ p : OrderPart,
      ((db.order_links ++
          [OrderLink.mk primary.order_id db.nextId, OrderLink.mk m.order_id db.nextId]).any
        (fun l => l.order_id == k && p.order_part_id == l.order_part_id)) =
      (db.order_links.any
        (fun l => l.order_id == k && p.order_part_id == l.order_part_id)) := by
    intro p
    rw [List.any_append]
    have h2 : ([OrderLink.mk primary.order_id db.nextId,
        OrderLink.mk m.order_id db.nextId] : List OrderLink).any
        (fun l => l.order_id == k && p.order_part_id == l.order_part_id) = false := by
      simp [Ne.symm hk1, Ne.symm hk2]
    rw [h2, Bool.or_false]
  rw [List.filter_congr (fun p _ => hP p)]
  have hnew : (([OrderPart.mk db.nextId fill m.price 0] : List OrderPart).filter
      (fun p => (db.order_links ++
          [OrderLink.mk primary.order_id db.nextId, OrderLink.mk m.order_id db.nextId]).any
        (fun l => l.order_id == k && p.order_part_id == l.order_part_id))) = [] := by
    rw [List.filter_cons, hP]
    have h3 : (db.order_links.any
        (fun l => l.order_id == k &&
          (OrderPart.mk db.nextId fill m.price 0).order_part_id ==
            l.order_part_id)) = false := by
      rw [List.any_eq_false]
      intro l hl
      have := hlinks l hl
      simp only [Bool.and_eq_true, beq_iff_eq, not_and]
      intro _
      omega
    simp [h3]
  rw [hnew, List.append_nil]

lemma grq_fulfillStep (db : Db) (primary m : Order) (fill : Int) (k : Nat)
    (hk1 : k ≠ primary.order_id) (hk2 : k ≠ m.order_id)
    (hlinks : ∀ l ∈ db.order_links, l.order_part_id < db.nextId) :
    get_order_remaining_quantity (fulfillStep primary m fill db) k =
      get_order_remaining_quantity db k := by
  rw [grq_spec, grq_spec, specLinkedParts_fulfillStep db primary m fill k hk1 hk2 hlinks]
  have horders : (fulfillStep primary m fill db).orders = db.orders := by
    rw [fulfillStep_eq]
  rw [horders]

def partsQuantitySum (db : Db) : Int :=
  (db.order_parts.map (fun p => p.quantity)).sum

/-- A candidate's remaining quantity as read from the store. -/
def remainingOf (db : Db) (m : Order) : Int :=
  (get_order_remaining_quantity db m.order_id).getD 0

lemma partsQuantitySum_fulfillStep (primary m : Order) (fill : Int) (db : Db) :
    partsQuantitySum (fulfillStep primary m fill db) = partsQuantitySum db + fill := by
  rw [fulfillStep_eq]
  unfold partsQuantitySum
  simp

lemma min_chain (q r s : Int) (_hq : 0 ≤ q) (_hr : 0 ≤ r) (hs : 0 ≤ s) :
    (q - min q r) - min (q - min q r) s = q - min q (r + s) := by
  rcases le_total q r with h | h
  · rw [min_eq_left h, min_eq_left (by linarith : q ≤ r + s)]
    simp [min_eq_left hs]
  · rw [min_eq_right h]
    rcases le_total (q - r) s with h2 | h2
    · rw [min_eq_left h2, min_eq_left (by linarith : q ≤ r + s)]
      ring
    · rw [min_eq_right h2, min_eq_right (by linarith : r + s ≤ q)]
      ring



lemma fulfillLoop_total (primary : Order) (ms : List Order) :
    ∀ (db : Db) (rem : Int),
    0 ≤ rem →
    (ms.map (fun m => m.order_id)).Nodup →
    (∀ m ∈ ms, m.order_id ≠ primary.order_id) →
    (∀ l ∈ db.order_links, l.order_part_id < db.nextId) →
    (∀ m ∈ ms, ∃ o ∈ db.orders, o.order_id = m.order_id) →
    (∀ m ∈ ms, 0 ≤ remainingOf db m) →
    ∃ db' rem', fulfillLoop primary rem ms db = some (db', rem') ∧
      rem' = rem - min rem ((ms.map (remainingOf db)).sum) ∧
      partsQuantitySum db' = partsQuantitySum db + (rem - rem') := by
  induction ms with
  | nil =>
    intro db rem hrem _ _ _ _ _
    refine ⟨db, rem, rfl, ?_, by ring⟩
    simp [min_eq_right hrem]
  | cons m rest ih =>
    intro db rem hrem hnodup hne hlinks hex hpos
    rw [List.map_cons, List.nodup_cons] at hnodup
    obtain ⟨hm_notin, hnodup'⟩ := hnodup
    obtain ⟨o, ho, hoid⟩ := hex m (List.mem_cons_self m rest)
    have hg : ∃ r, get_order_remaining_quantity db m.order_id = some r := by
      unfold get_order_remaining_quantity
      rw [get_orders_by_id]
      cases hfil : db.orders.filter (fun x => x.order_id == m.order_id) with
      | nil =>
        exfalso
        rw [List.filter_eq_nil_iff] at hfil
        exact hfil o ho (by simp [hoid])
      | cons a t => exact ⟨_, rfl⟩
    obtain ⟨r, hr⟩ := hg
    have hrval : remainingOf db m = r := by simp [remainingOf, hr]
    have hrpos : 0 ≤ r := hrval ▸ hpos m (List.mem_cons_self m rest)
    have hsum0 : 0 ≤ (rest.map (remainingOf db)).sum := by
      apply List.sum_nonneg
      intro x hx
      obtain ⟨m', hm', rfl⟩ := List.mem_map.mp hx
      exact hpos m' (List.mem_cons_of_mem m hm')
    by_cases hz : rem ≤ 0
    · have hrem0 : rem = 0 := le_antisymm hz hrem
      refine ⟨db, rem, ?_, ?_, by ring⟩
      · unfold fulfillLoop
        rw [if_pos hz]
      · subst hrem0
        have hmin : min (0 : Int) ((List.map (remainingOf db) (m :: rest)).sum) = 0 := by
          apply min_eq_left
          simp only [List.map_cons, List.sum_cons]
          rw [hrval]
          linarith
        rw [hmin]
        ring
    · have hz' : ¬ rem ≤ 0 := hz
      have hzpos : 0 < rem := lt_of_not_le hz
      have hloop : fulfillLoop primary rem (m :: rest) db =
          fulfillLoop primary (rem - min rem r) rest
            (fulfillStep primary m (min rem r) db) := by
        rw [fulfillLoop]
        rw [if_neg hz', hr]
      have horders : (fulfillStep primary m (min rem r) db).orders = db.orders := by
        rw [fulfillStep_eq]
      have hlinks2 : ∀ l ∈ (fulfillStep primary m (min rem r) db).order_links,
          l.order_part_id < (fulfillStep primary m (min rem r) db).nextId := by
        rw [fulfillStep_eq]
        intro l hl
        simp only [List.mem_append, List.mem_cons, List.not_mem_nil, or_false] at hl
        rcases hl with h1 | h2 | h3
        · exact Nat.lt_succ_of_lt (hlinks l h1)
        · subst h2; exact Nat.lt_succ_self _
        · subst h3; exact Nat.lt_succ_self _
      have hrem2 : ∀ m' ∈ rest,
          remainingOf (fulfillStep primary m (min rem r) db) m' = remainingOf db m' := by
        intro m' hm'
        unfold remainingOf
        rw [grq_fulfillStep db primary m (min rem r) m'.order_id
          (hne m' (List.mem_cons_of_mem m hm'))
          (fun h => hm_notin (h ▸ List.mem_map_of_mem (fun x => x.order_id) hm'))
          hlinks]
      have hex2 : ∀ m' ∈ rest,
          ∃ o ∈ (fulfillStep primary m (min rem r) db).orders, o.order_id = m'.order_id := by
        rw [horders]
        exact fun m' h => hex m' (List.mem_cons_of_mem m h)
      have hpos2 : ∀ m' ∈ rest, 0 ≤ remainingOf (fulfillStep primary m (min rem r) db) m' :=
        fun m' h => (hrem2 m' h) ▸ hpos m' (List.mem_cons_of_mem m h)
      have hfill_le : min rem r ≤ rem := min_le_left rem r
      obtain ⟨db', rem', hL, hR, hS⟩ := ih (fulfillStep primary m (min rem r) db)
        (rem - min rem r) (by linarith) hnodup'
        (fun m' h => hne m' (List.mem_cons_of_mem m h)) hlinks2 hex2 hpos2
      have hsum : (rest.map (remainingOf (fulfillStep primary m (min rem r) db))).sum =
          (rest.map (remainingOf db)).sum := by
        rw [List.map_congr_left hrem2]
      refine ⟨db', rem', by rw [hloop]; exact hL, ?_, ?_⟩
      · rw [hR, hsum]
        simp only [List.map_cons, List.sum_cons, hrval]
        exact min_chain rem r _ (le_of_lt hzpos) hrpos hsum0
      · rw [hS, partsQuantitySum_fulfillStep]
        ring



/-- C5: one run of the fill-allocation procedure on a primary order and an
ordered candidate list — each step fills the minimum of the running
remainder and the candidate's stored remaining quantity and stops once the
remainder is ≤ 0 — creates parts whose total quantity is exactly
`min(primary.quantity, Σ candidate remaining quantities)`, for any list of
distinct stored candidates (equal prices included) with nonnegative
remaining quantities. -/
theorem C5_fill_allocation_total (db : Db) (primary : Order) (ms : List Order)
    (hq : 0 ≤ primary.quantity)
    (hnodup : (ms.map (fun m => m.order_id)).Nodup)
    (hne : ∀ m ∈ ms, m.order_id ≠ primary.order_id)
    (hlinks : ∀ l ∈ db.order_links, l.order_part_id < db.nextId)
    (hex : ∀ m ∈ ms, ∃ o ∈ db.orders, o.order_id = m.order_id)
    (hpos : ∀ m ∈ ms, 0 ≤ remainingOf db m) :
    ∃ db', fulfill_order primary ms db = some db' ∧
      partsQuantitySum db' - partsQuantitySum db =
        min primary.quantity ((ms.map (remainingOf db)).sum) := by
  obtain ⟨db', rem', hL, hR, hS⟩ :=
    fulfillLoop_total primary ms db primary.quantity hq hnodup hne hlinks hex hpos
  unfold fulfill_order
  rw [hL]
  by_cases h0 : rem' = 0
  · refine ⟨update_order_status db' primary.user_id OrderStatus.CLOSED, ?_, ?_⟩
    · simp [h0]
    · rw [update_order_status_eq]
      rw [hS, hR]
      ring
  · refine ⟨db', ?_, ?_⟩
    · simp [h0]
    · rw [hS, hR]
      ring

def c5s1 : Order := ⟨11, 4, 2000, OrderType.SELL, 5, 120, OrderStatus.OPEN⟩
def c5s2 : Order := ⟨12, 5, 2000, OrderType.SELL, 5, 120, OrderStatus.OPEN⟩
def c5buy : Order := ⟨13, 6, 2000, OrderType.BUY, 7, 130, OrderStatus.OPEN⟩
def c5db : Db := add_order (add_order Db.empty c5s1) c5s2

/-- C5, witness: a BUY for 7 against two equal-priced SELL candidates of 5
each fills a total of `min 7 10 = 7`. -/
theorem C5_witness :
    ∃ db', fulfill_order c5buy [c5s1, c5s2] c5db = some db' ∧
      partsQuantitySum db' - partsQuantitySum c5db =
        min c5buy.quantity (([c5s1, c5s2].map (remainingOf c5db)).sum) :=
  C5_fill_allocation_total c5db c5buy [c5s1, c5s2] (by decide) (by decide)
    (by decide) (by decide) (by decide) (by decide)

/-- The inductive invariant behind C7: order ids are unique, part ids and
the part ids of links are below the freshness counter, and every stored
part is referenced by exactly two links, pointing at two distinct stored
orders of opposite type. -/
structure Inv (db : Db) : Prop where
  idsNodup : (db.orders.map (fun o => o.order_id)).Nodup
  partsLt : ∀ p ∈ db.order_parts, p.order_part_id < db.nextId
  linksLt : ∀ l ∈ db.order_links, l.order_part_id < db.nextId
  twoLinks : ∀ p ∈ db.order_parts,
    ∃ l1 l2,
      db.order_links.filter (fun l => l.order_part_id == p.order_part_id) = [l1, l2] ∧
      ∃ o1 ∈ db.orders, o1.order_id = l1.order_id ∧
      ∃ o2 ∈ db.orders, o2.order_id = l2.order_id ∧
        o1.order_id ≠ o2.order_id ∧ o1.order_type ≠ o2.order_type

lemma Inv_empty : Inv Db.empty := by
  constructor <;> simp [Db.empty]

lemma Inv_fulfillStep (db : Db) (primary m : Order) (fill : Int)
    (hInv : Inv db)
    (hp : ∃ o ∈ db.orders, o.order_id = primary.order_id ∧
      o.order_type = primary.order_type)
    (hm : ∃ o ∈ db.orders, o.order_id = m.order_id ∧ o.order_type = m.order_type)
    (hneid : m.order_id ≠ primary.order_id)
    (hnety : m.order_type ≠ primary.order_type) :
    Inv (fulfillStep primary m fill db) ∧
      (fulfillStep primary m fill db).orders = db.orders := by
  rw [fulfillStep_eq]
  refine ⟨⟨hInv.idsNodup, ?_, ?_, ?_⟩, rfl⟩
  · intro p hp'
    simp only [List.mem_append, List.mem_cons, List.not_mem_nil, or_false] at hp'
    rcases hp' with h1 | h2
    · exact Nat.lt_succ_of_lt (hInv.partsLt p h1)
    · subst h2; exact Nat.lt_succ_self _
  · intro l hl
    simp only [List.mem_append, List.mem_cons, List.not_mem_nil, or_false] at hl
    rcases hl with h1 | h2 | h3
    · exact Nat.lt_succ_of_lt (hInv.linksLt l h1)
    · subst h2; exact Nat.lt_succ_self _
    · subst h3; exact Nat.lt_succ_self _
  · intro p hp'
    simp only [List.mem_append, List.mem_cons, List.not_mem_nil, or_false] at hp'
    rcases hp' with hold | hnew
    · obtain ⟨l1, l2, hfil, o1, ho1, h1, o2, ho2, h2, hneq, htyq⟩ :=
        hInv.twoLinks p hold
      have hne1 : (db.nextId == p.order_part_id) = false := by
        have := hInv.partsLt p hold
        simp only [beq_eq_false_iff_ne]
        omega
      refine ⟨l1, l2, ?_, o1, ho1, h1, o2, ho2, h2, hneq, htyq⟩
      rw [List.filter_append, hfil]
      have hnil : List.filter (fun l => l.order_part_id == p.order_part_id)
          [OrderLink.mk primary.order_id db.nextId,
           OrderLink.mk m.order_id db.nextId] = [] := by
        simp [List.filter_cons, hne1]
      rw [hnil, List.append_nil]
    · subst hnew
      obtain ⟨o1, ho1, h1, hty1⟩ := hp
      obtain ⟨o2, ho2, h2, hty2⟩ := hm
      refine ⟨OrderLink.mk primary.order_id db.nextId,
        OrderLink.mk m.order_id db.nextId, ?_, o1, ho1, h1, o2, ho2, h2, ?_, ?_⟩
      · rw [List.filter_append]
        have hnil : List.filter
            (fun l => l.order_part_id ==
              (OrderPart.mk db.nextId fill m.price 0).order_part_id)
            db.order_links = [] := by
          rw [List.filter_eq_nil_iff]
          intro l hl
          have := hInv.linksLt l hl
          simp only [beq_iff_eq]
          intro he
          omega
        rw [hnil, List.nil_append]
        simp [List.filter_cons]
      · rw [h1, h2]; exact fun he => hneid he.symm
      · rw [hty1, hty2]; exact fun he => hnety he.symm

lemma Inv_fulfillLoop (primary : Order) (ms : List Order) :
    ∀ (db : Db) (rem : Int) (db' : Db) (rem' : Int),
    Inv db →
    (∃ o ∈ db.orders, o.order_id = primary.order_id ∧
      o.order_type = primary.order_type) →
    (∀ m ∈ ms, ∃ o ∈ db.orders, o.order_id = m.order_id ∧
      o.order_type = m.order_type) →
    (∀ m ∈ ms, m.order_type ≠ primary.order_type) →
    fulfillLoop primary rem ms db = some (db', rem') →
    Inv db' ∧ db'.orders = db.orders := by
  induction ms with
  | nil =>
    intro db rem db' rem' hInv _ _ _ h
    rw [fulfillLoop] at h
    simp only [Option.some.injEq, Prod.mk.injEq] at h
    obtain ⟨h1, -⟩ := h
    exact ⟨h1 ▸ hInv, h1 ▸ rfl⟩
  | cons m rest ih =>
    intro db rem db' rem' hInv hp hms hty h
    rw [fulfillLoop] at h
    by_cases hz : rem ≤ 0
    · rw [if_pos hz] at h
      simp only [Option.some.injEq, Prod.mk.injEq] at h
      obtain ⟨h1, -⟩ := h
      exact ⟨h1 ▸ hInv, h1 ▸ rfl⟩
    · rw [if_neg hz] at h
      cases hg : get_order_remaining_quantity db m.order_id with
      | none => rw [hg] at h; cases h
      | some r =>
        rw [hg] at h
        obtain ⟨om, hom, homid, homty⟩ := hms m (List.mem_cons_self m rest)
        obtain ⟨op, hop, hopid, hopty⟩ := hp
        have hneid : m.order_id ≠ primary.order_id := by
          intro he
          have heq : om = op :=
            List.inj_on_of_nodup_map hInv.idsNodup hom hop
              (by rw [homid, hopid, he])
          apply hty m (List.mem_cons_self m rest)
          rw [← homty, heq, hopty]
        obtain ⟨hInv2, horders2⟩ :=
          Inv_fulfillStep db primary m (min rem r) hInv ⟨op, hop, hopid, hopty⟩
            ⟨om, hom, homid, homty⟩ hneid (hty m (List.mem_cons_self m rest))
        obtain ⟨hInv', horders'⟩ :=
          ih (fulfillStep primary m (min rem r) db) (rem - min rem r) db' rem'
            hInv2 (by rw [horders2]; exact ⟨op, hop, hopid, hopty⟩)
            (by rw [horders2]; exact fun m' h' => hms m' (List.mem_cons_of_mem m h'))
            (fun m' h' => hty m' (List.mem_cons_of_mem m h')) h
        exact ⟨hInv', horders'.trans horders2⟩

lemma place_order_buy (db : Db) (o : Order) (h : o.order_type = OrderType.BUY) :
    place_order db o = match_buy_order (add_order db o) o := by
  unfold place_order
  rw [h]

lemma place_order_sell (db : Db) (o : Order) (h : o.order_type = OrderType.SELL) :
    place_order db o = match_sell_order (add_order db o) o := by
  unfold place_order
  rw [h]

lemma Inv_add_order (db : Db) (o : Order) (hInv : Inv db)
    (hfresh : o.order_id ∉ db.orders.map (fun x => x.order_id)) :
    Inv (add_order db o) := by
  unfold add_order
  refine ⟨?_, hInv.partsLt, hInv.linksLt, ?_⟩
  · rw [List.map_append]
    simp only [List.map_cons, List.map_nil]
    rw [List.nodup_append]
    refine ⟨hInv.idsNodup, List.nodup_singleton _, ?_⟩
    intro a ha hb
    simp only [List.mem_singleton] at hb
    exact hfresh (hb ▸ ha)
  · intro p hp
    obtain ⟨l1, l2, hfil, o1, ho1, h1, o2, ho2, h2, hneq, htyq⟩ :=
      hInv.twoLinks p hp
    exact ⟨l1, l2, hfil, o1, List.mem_append_left _ ho1, h1,
      o2, List.mem_append_left _ ho2, h2, hneq, htyq⟩



lemma get_orders_sell_filter (db : Db) (sell : Order) :
    get_orders db none (some sell.item_id) none (some OrderType.BUY)
      (some OrderStatus.OPEN) none (some sell.price) =
    db.orders.filter (fun o =>
      o.order_status == OrderStatus.OPEN && o.order_type == OrderType.BUY &&
      o.item_id == sell.item_id && decide (sell.price ≤ o.price)) := by
  unfold get_orders
  apply List.filter_congr
  intro o _
  rw [Bool.eq_iff_iff]
  simp only [optEq, Bool.and_eq_true, beq_iff_eq, decide_eq_true_eq, Bool.true_and]
  tauto

lemma buyCandidates_sound (db : Db) (buy : Order) :
    ∀ m ∈ buyCandidates db buy, m ∈ db.orders ∧ m.order_type = OrderType.SELL := by
  intro m hm
  unfold buyCandidates sortByPrice at hm
  rw [List.mem_insertionSort, get_orders_buy_filter, List.mem_filter] at hm
  obtain ⟨hmem, hp⟩ := hm
  simp only [Bool.and_eq_true, beq_iff_eq, decide_eq_true_eq] at hp
  exact ⟨hmem, hp.1.1.2⟩

lemma sellCandidates_sound (db : Db) (sell : Order) :
    ∀ m ∈ sellCandidates db sell, m ∈ db.orders ∧ m.order_type = OrderType.BUY := by
  intro m hm
  unfold sellCandidates sortByPrice at hm
  rw [List.mem_insertionSort, get_orders_sell_filter, List.mem_filter] at hm
  obtain ⟨hmem, hp⟩ := hm
  simp only [Bool.and_eq_true, beq_iff_eq, decide_eq_true_eq] at hp
  exact ⟨hmem, hp.1.1.2⟩

lemma fulfill_order_eq_some (primary : Order) (ms : List Order) (db dbl : Db)
    (reml : Int)
    (hl : fulfillLoop primary primary.quantity ms db = some (dbl, reml)) :
    fulfill_order primary ms db = some dbl := by
  unfold fulfill_order
  rw [hl]
  show (if (reml == 0) = true
      then some (update_order_status dbl primary.user_id OrderStatus.CLOSED)
      else some dbl) = some dbl
  rw [update_order_status_eq, ite_self]

lemma fulfill_order_eq_none (primary : Order) (ms : List Order) (db : Db)
    (hl : fulfillLoop primary primary.quantity ms db = none) :
    fulfill_order primary ms db = none := by
  unfold fulfill_order
  rw [hl]

lemma Inv_place (db db' : Db) (o : Order) (hInv : Inv db)
    (hfresh : o.order_id ∉ db.orders.map (fun x => x.order_id))
    (h : place_order db o = some db') : Inv db' := by
  have hInv1 : Inv (add_order db o) := Inv_add_order db o hInv hfresh
  have hself : ∃ x ∈ (add_order db o).orders,
      x.order_id = o.order_id ∧ x.order_type = o.order_type :=
    ⟨o, by simp [add_order], rfl, rfl⟩
  cases hty : o.order_type with
  | BUY =>
    rw [place_order_buy db o hty] at h
    unfold match_buy_order at h
    cases hl : fulfillLoop o o.quantity (buyCandidates (add_order db o) o)
        (add_order db o) with
    | none => rw [fulfill_order_eq_none o _ _ hl] at h; cases h
    | some pr =>
      obtain ⟨dbl, reml⟩ := pr
      rw [fulfill_order_eq_some o _ _ dbl reml hl] at h
      have hcands : ∀ m ∈ buyCandidates (add_order db o) o,
          ∃ x ∈ (add_order db o).orders, x.order_id = m.order_id ∧
            x.order_type = m.order_type :=
        fun m hm => ⟨m, (buyCandidates_sound _ o m hm).1, rfl, rfl⟩
      have hcty : ∀ m ∈ buyCandidates (add_order db o) o,
          m.order_type ≠ o.order_type := by
        intro m hm
        rw [(buyCandidates_sound _ o m hm).2, hty]
        decide
      obtain ⟨hInvl, -⟩ := Inv_fulfillLoop o (buyCandidates (add_order db o) o)
        (add_order db o) o.quantity dbl reml hInv1 hself hcands hcty hl
      exact Option.some.inj h ▸ hInvl
  | SELL =>
    rw [place_order_sell db o hty] at h
    unfold match_sell_order at h
    cases hl : fulfillLoop o o.quantity (sellCandidates (add_order db o) o)
        (add_order db o) with
    | none => rw [fulfill_order_eq_none o _ _ hl] at h; cases h
    | some pr =>
      obtain ⟨dbl, reml⟩ := pr
      rw [fulfill_order_eq_some o _ _ dbl reml hl] at h
      have hcands : ∀ m ∈ sellCandidates (add_order db o) o,
          ∃ x ∈ (add_order db o).orders, x.order_id = m.order_id ∧
            x.order_type = m.order_type :=
        fun m hm => ⟨m, (sellCandidates_sound _ o m hm).1, rfl, rfl⟩
      have hcty : ∀ m ∈ sellCandidates (add_order db o) o,
          m.order_type ≠ o.order_type := by
        intro m hm
        rw [(sellCandidates_sound _ o m hm).2, hty]
        decide
      obtain ⟨hInvl, -⟩ := Inv_fulfillLoop o (sellCandidates (add_order db o) o)
        (add_order db o) o.quantity dbl reml hInv1 hself hcands hcty hl
      exact Option.some.inj h ▸ hInvl

lemma Inv_reachable (db : Db) (h : Reachable db) : Inv db := by
  induction h with
  | empty => exact Inv_empty
  | place dba dbb o _ hfresh hplace ih => exact Inv_place dba dbb o ih hfresh hplace

/-- C7: in every store reachable by place_order calls, every OrderPart is
referenced by exactly two OrderLink records, and those links point to two
distinct stored orders of opposite order_type. -/
theorem C7_two_links_invariant (db : Db) (h : Reachable db) (p : OrderPart)
    (hp : p ∈ db.order_parts) :
    ∃ l1 l2,
      db.order_links.filter (fun l => l.order_part_id == p.order_part_id) = [l1, l2] ∧
      ∃ o1 ∈ db.orders, o1.order_id = l1.order_id ∧
      ∃ o2 ∈ db.orders, o2.order_id = l2.order_id ∧
        o1.order_id ≠ o2.order_id ∧ o1.order_type ≠ o2.order_type :=
  (Inv_reachable db h).twoLinks p hp

/-- C7, witness: the Scenario 2 store is reachable and its single part is
doubly linked to the BUY and the SELL. -/
theorem C7_witness :
    ∃ l1 l2,
      db2.order_links.filter (fun l => l.order_part_id == part0.order_part_id) =
        [l1, l2] ∧
      ∃ o1 ∈ db2.orders, o1.order_id = l1.order_id ∧
      ∃ o2 ∈ db2.orders, o2.order_id = l2.order_id ∧
        o1.order_id ≠ o2.order_id ∧ o1.order_type ≠ o2.order_type :=
  C7_two_links_invariant db2
    (Reachable.place db1 db2 sell1
      (Reachable.place Db.empty db1 buy1 Reachable.empty (by decide) (by decide))
      (by decide) (by decide))
    part0 (by decide)

end RsTrader
